import Mathlib

/-!
# Online Metronome — verification of the lookahead scheduler core

Shallow embedding of the repository's `Metronome` class (`js/metronome.js`)
and of the mobile resilience handlers (`js/mobile.js`).  JS numbers are
modelled as rationals (`ℚ`); machine state is a record, each method a pure
state transformer; scheduled audio events are returned as explicit lists.
-/

/-- JS `Math.trunc` on a rational: rounds toward zero. -/
def jsTrunc (q : ℚ) : ℤ := if 0 ≤ q then ⌊q⌋ else ⌈q⌉

/-- JS `%` (remainder, sign of the dividend): `x % y = x - y * trunc (x / y)`.
JS yields `NaN` when `y = 0`; the model returns `x` there (that case is
unreachable in every state the claims quantify over). -/
def jsFmod (x y : ℚ) : ℚ := x - y * (jsTrunc (x / y) : ℚ)

/-- JS `Math.round`: half-up rounding, `⌊v + 1/2⌋`. -/
def jsRound (v : ℚ) : ℤ := ⌊v + 1/2⌋

/-- JS `a || d` for an optional numeric `a`: the default is used when `a` is
absent (`undefined`) or `0` (both falsy). -/
def jsOr (a : Option ℚ) (d : ℚ) : ℚ :=
  match a with
  | none => d
  | some x => if x = 0 then d else x

/-- `SCHEDULE_AHEAD_TIME` — seconds of lookahead per scheduling pass. -/
def SCHEDULE_AHEAD_TIME : ℚ := 1/10

/-- `FREQ_ACCENT` — Hz, first click of a measure. -/
def FREQ_ACCENT : ℚ := 1500

/-- `FREQ_NORMAL` — Hz, other beat-aligned clicks. -/
def FREQ_NORMAL : ℚ := 1000

/-- One scheduled click, as produced by `Metronome._scheduleClick`:
the `(beat, subdiv)` pair it carries, its hardware-clock timestamp, the
oscillator frequency, the gain value, and whether/when the `onBeat` UI
callback is scheduled for it. -/
structure Click where
  beat : ℚ
  subdiv : ℕ
  time : ℚ
  freq : ℚ
  vol : ℚ
  uiCallback : Bool
  uiDelayMs : ℚ
deriving DecidableEq, Repr

/-- The `Metronome` instance state.  `_bpm` is stored as an integer (the
setter rounds and clamps), `_subdivision` as a natural number (the setter
floors and clamps to ≥ 1).  `_beatsPerMeasure` and `_currentBeat` stay raw
rationals: the meter setter stores its input unvalidated.  `_audioCtx` is
abstracted to a creation flag, `_intervalId` to an optional handle.
Defaults are the constructor's initial values. -/
structure Metronome where
  bpm : ℤ := 120
  beatsPerMeasure : ℚ := 4
  volume : ℚ := 4/5
  subdivision : ℕ := 1
  audioCtx : Bool := false
  intervalId : Option Unit := none
  nextBeatTime : ℚ := 0
  currentBeat : ℚ := 0
  currentSubdiv : ℕ := 0
deriving DecidableEq, Repr

/-- A freshly constructed `Metronome`. -/
def Metronome.init : Metronome := {}

/-- `set bpm(value)`: `Math.min(300, Math.max(20, Math.round(value)))`. -/
def Metronome.setBpm (m : Metronome) (value : ℚ) : Metronome :=
  { m with bpm := min 300 (max 20 (jsRound value)) }

/-- `set beatsPerMeasure(value)`: stores the value unvalidated and resets
the beat cursor to 0. -/
def Metronome.setBeatsPerMeasure (m : Metronome) (value : ℚ) : Metronome :=
  { m with beatsPerMeasure := value, currentBeat := 0 }

/-- `set volume(value)`: `Math.min(1, Math.max(0, value))`. -/
def Metronome.setVolume (m : Metronome) (value : ℚ) : Metronome :=
  { m with volume := min 1 (max 0 value) }

/-- `set subdivision(value)`: `Math.max(1, Math.floor(value))`, and resets
the subdivision cursor to 0.  The stored value is ≥ 1, hence a `ℕ`. -/
def Metronome.setSubdivision (m : Metronome) (value : ℚ) : Metronome :=
  { m with subdivision := (max 1 ⌊value⌋).toNat, currentSubdiv := 0 }

/-- `get isRunning()`: `this._intervalId !== null`. -/
def Metronome.isRunning (m : Metronome) : Bool := m.intervalId.isSome

/-- `_ensureAudioContext()`: lazily creates the audio clock, once. -/
def Metronome.ensureAudioContext (m : Metronome) : Metronome :=
  if m.audioCtx then m else { m with audioCtx := true }

/-- Seconds per click: `(60 / this._bpm) / this._subdivision`. -/
def Metronome.secondsPerClick (m : Metronome) : ℚ :=
  (60 / (m.bpm : ℚ)) / (m.subdivision : ℚ)

/-- `_scheduleClick(beat, subdiv, time)` at the current cursor: computes
frequency (accent 1500 / beat 1000 / subdivision 600), gain
(`max(isBeat ? volume : volume * 0.45, 0.0001)`), and schedules the
`onBeat` UI callback (beat clicks only) after
`max(0, (time - ctx.currentTime) * 1000)` ms. -/
def Metronome.scheduleClick (m : Metronome) (now : ℚ) : Click :=
  let isAccent := m.currentBeat = 0 ∧ m.currentSubdiv = 0
  let isBeat := m.currentSubdiv = 0
  let freq : ℚ := if isAccent then FREQ_ACCENT else if isBeat then FREQ_NORMAL else 600
  let subdivVolume : ℚ := if isBeat then m.volume else m.volume * (45/100)
  { beat := m.currentBeat
    subdiv := m.currentSubdiv
    time := m.nextBeatTime
    freq := freq
    vol := max subdivVolume (1/10000)
    uiCallback := m.currentSubdiv == 0
    uiDelayMs := max 0 ((m.nextBeatTime - now) * 1000) }

/-- `_advanceBeat()`: next-event time advances by one subdivision interval;
the subdivision cursor wraps mod `_subdivision`; on wrap the beat cursor
advances mod `_beatsPerMeasure` (JS `%` on the raw stored meter). -/
def Metronome.advanceBeat (m : Metronome) : Metronome :=
  let s := (m.currentSubdiv + 1) % m.subdivision
  { m with
    nextBeatTime := m.nextBeatTime + m.secondsPerClick
    currentSubdiv := s
    currentBeat := if s = 0 then jsFmod (m.currentBeat + 1) m.beatsPerMeasure else m.currentBeat }

/-- The body of `_schedule()`'s while loop, fuelled so that it is a total
structural recursion.  `scheduleFuel` below computes fuel that provably
suffices (see `schedulePass_drains`), so the fuelled loop coincides with
the source's unbounded `while (nextBeatTime < scheduleUntil)`. -/
def Metronome.scheduleGo : ℕ → Metronome → ℚ → ℚ → Metronome × List Click
  | 0, m, _, _ => (m, [])
  | fuel + 1, m, now, scheduleUntil =>
    if m.nextBeatTime < scheduleUntil then
      let c := m.scheduleClick now
      let r := Metronome.scheduleGo fuel m.advanceBeat now scheduleUntil
      (r.1, c :: r.2)
    else (m, [])

/-- Number of loop iterations an exhaustive pass can need: the click count
fits under `⌈(scheduleUntil - nextBeatTime) / secondsPerClick⌉`. -/
def Metronome.scheduleFuel (m : Metronome) (scheduleUntil : ℚ) : ℕ :=
  (⌈(scheduleUntil - m.nextBeatTime) / m.secondsPerClick⌉).toNat

/-- `_schedule()`: one scheduling pass at hardware-clock time `now`;
emits every click with timestamp below `now + SCHEDULE_AHEAD_TIME`. -/
def Metronome.schedulePass (m : Metronome) (now : ℚ) : Metronome × List Click :=
  Metronome.scheduleGo (m.scheduleFuel (now + SCHEDULE_AHEAD_TIME)) m now
    (now + SCHEDULE_AHEAD_TIME)

/-- `start()`: no-op if running; otherwise creates/reuses the audio clock
(resume is an external effect), resets the cursor, anchors the next event
at `now + (baseLatency || 0.01)`, runs one immediate scheduling pass, and
installs the polling interval. -/
def Metronome.start (m : Metronome) (now : ℚ) (baseLatency : Option ℚ) :
    Metronome × List Click :=
  if m.isRunning then (m, [])
  else
    let m1 := m.ensureAudioContext
    let m2 := { m1 with
      currentBeat := 0
      currentSubdiv := 0
      nextBeatTime := now + jsOr baseLatency (1/100) }
    let r := m2.schedulePass now
    ({ r.1 with intervalId := some () }, r.2)

/-- `stop()`: no-op if stopped; otherwise clears the polling interval. -/
def Metronome.stop (m : Metronome) : Metronome :=
  if m.isRunning then { m with intervalId := none } else m

/-- Successive scheduling passes at the given hardware-clock times, with
the emitted clicks concatenated in order. -/
def Metronome.runPasses (m : Metronome) : List ℚ → Metronome × List Click
  | [] => (m, [])
  | now :: rest =>
    let r := m.schedulePass now
    let r2 := r.1.runPasses rest
    (r2.1, r.2 ++ r2.2)

/-- `mobile.js` `recoverPlayback()`: if a context exists (resume is an
external effect) and the engine is running, re-anchor the next-event time
to `ctx.currentTime + (ctx.baseLatency || 0.01)`. -/
def Metronome.recoverPlayback (m : Metronome) (now : ℚ) (baseLatency : Option ℚ) :
    Metronome :=
  if !m.audioCtx then m
  else if m.isRunning then { m with nextBeatTime := now + jsOr baseLatency (1/100) }
  else m

/-- Hardware clock lifecycle states observed by the resilience code. -/
inductive CtxState where
  | suspended | running | interrupted | closed
deriving DecidableEq, Repr

/-- `mobile.js` statechange handler installed by `hookAudioContextRecovery`:
on the clock's transition into `running` while the engine is running,
re-anchor the next-event time to `ctx.currentTime + (ctx.baseLatency || 0.01)`. -/
def Metronome.onStatechange (m : Metronome) (st : CtxState) (now : ℚ)
    (baseLatency : Option ℚ) : Metronome :=
  if st = CtxState.running ∧ m.isRunning = true then
    { m with nextBeatTime := now + jsOr baseLatency (1/100) }
  else m

/-- `mobile.js` visibilitychange handler: on becoming visible while the
engine is running, run `recoverPlayback` (wake-lock re-request is an
external effect). -/
def Metronome.onVisibilitychange (m : Metronome) (visible : Bool) (now : ℚ)
    (baseLatency : Option ℚ) : Metronome :=
  if visible = true ∧ m.isRunning = true then m.recoverPlayback now baseLatency
  else m

/-! ## Concrete states used in witnesses and counterexamples -/

/-- A running engine state with default musical parameters. -/
def runningExample : Metronome :=
  { Metronome.init with intervalId := some (), audioCtx := true }

/-- Running at 300 BPM with two clicks per beat and volume 0: its pass
emits a subdivision click whose gain hits the `0.0001` floor. -/
def volumeZeroState : Metronome :=
  { bpm := 300, beatsPerMeasure := 4, volume := 0, subdivision := 2,
    audioCtx := true, intervalId := some (), nextBeatTime := 0,
    currentBeat := 0, currentSubdiv := 0 }

/-- Running at 120 BPM, one click per beat, with the cursor lagging the
clock (as after a throttled polling timer): a single pass emits more
than `⌈lookahead / interval⌉` clicks. -/
def laggingState : Metronome :=
  { bpm := 120, beatsPerMeasure := 4, volume := 4/5, subdivision := 1,
    audioCtx := true, intervalId := some (), nextBeatTime := 0,
    currentBeat := 0, currentSubdiv := 0 }

/-- A fresh-start state: 120 BPM, meter 4, two clicks per beat, cursor at
(0, 0) with the next click due immediately. -/
def freshStartState : Metronome :=
  { bpm := 120, beatsPerMeasure := 4, volume := 4/5, subdivision := 2,
    audioCtx := true, intervalId := some (), nextBeatTime := 0,
    currentBeat := 0, currentSubdiv := 0 }

/-- The steps `start()` and `stop()` perform, in source order, used to
state where the lifecycle hooks fire. -/
inductive LifecycleStep where
  | acquireClock
  | resumeClock
  | resetCursor
  | anchorNext
  | firstPass
  | beginPolling
  | hookOnStart
  | cancelPolling
  | hookOnStop
deriving DecidableEq, Repr

/-- Modelled from the spec: `start()` "Invokes an `onStart` extension hook
after all of the above."  The `metronome.js` snapshot in this repository
lacks the hook invocation, although `mobile.js` assigns `onStart`/`onStop`
handlers and the repository's mobile-fixes plan records the calls
`this.onStart?.()` / `this.onStop?.()` at the end of `start()`/`stop()`
as implemented; the hook-invoking `start` is therefore modelled from the
spec: it performs the source-derived `start` and, exactly when the engine
transitions to Running, runs the listed steps with the `onStart`
invocation last. -/
def Metronome.startWithHooks (m : Metronome) (now : ℚ) (baseLatency : Option ℚ) :
    Metronome × List Click × List LifecycleStep :=
  if m.isRunning then (m, [], [])
  else
    let r := m.start now baseLatency
    (r.1, r.2,
      [LifecycleStep.acquireClock, LifecycleStep.resumeClock,
       LifecycleStep.resetCursor, LifecycleStep.anchorNext,
       LifecycleStep.firstPass, LifecycleStep.beginPolling,
       LifecycleStep.hookOnStart])

/-- Modelled from the spec: `stop()` "Invokes an `onStop` extension hook"
after cancelling the polling interval (see `startWithHooks` for why this
is modelled). -/
def Metronome.stopWithHooks (m : Metronome) : Metronome × List LifecycleStep :=
  if m.isRunning then
    (m.stop, [LifecycleStep.cancelPolling, LifecycleStep.hookOnStop])
  else (m.stop, [])

/-! ## Basic lemmas about the scheduling loop -/

/-- Fuel computation, evaluated: `⌈x⌉.toNat = n` once `n - 1 < x ≤ n`. -/
lemma Metronome.scheduleFuel_eq (m : Metronome) (u : ℚ) (n : ℕ)
    (h1 : (n : ℚ) - 1 < (u - m.nextBeatTime) / m.secondsPerClick)
    (h2 : (u - m.nextBeatTime) / m.secondsPerClick ≤ (n : ℚ)) :
    m.scheduleFuel u = n := by
  unfold Metronome.scheduleFuel
  rw [show ⌈(u - m.nextBeatTime) / m.secondsPerClick⌉ = (n : ℤ) from
    Int.ceil_eq_iff.mpr ⟨by exact_mod_cast h1, by exact_mod_cast h2⟩]
  simp

/-- `_advanceBeat` touches only the cursor fields. -/
lemma Metronome.advanceBeat_preserves (m : Metronome) :
    m.advanceBeat.bpm = m.bpm ∧ m.advanceBeat.subdivision = m.subdivision ∧
    m.advanceBeat.beatsPerMeasure = m.beatsPerMeasure ∧
    m.advanceBeat.volume = m.volume ∧ m.advanceBeat.intervalId = m.intervalId ∧
    m.advanceBeat.audioCtx = m.audioCtx :=
  ⟨rfl, rfl, rfl, rfl, rfl, rfl⟩

/-- A scheduling loop touches only the cursor fields. -/
lemma Metronome.scheduleGo_preserves (fuel : ℕ) (m : Metronome) (now u : ℚ) :
    (Metronome.scheduleGo fuel m now u).1.bpm = m.bpm ∧
    (Metronome.scheduleGo fuel m now u).1.subdivision = m.subdivision ∧
    (Metronome.scheduleGo fuel m now u).1.beatsPerMeasure = m.beatsPerMeasure ∧
    (Metronome.scheduleGo fuel m now u).1.volume = m.volume ∧
    (Metronome.scheduleGo fuel m now u).1.intervalId = m.intervalId ∧
    (Metronome.scheduleGo fuel m now u).1.audioCtx = m.audioCtx := by
  induction fuel generalizing m with
  | zero => simp [Metronome.scheduleGo]
  | succ n ih =>
    by_cases h : m.nextBeatTime < u
    · simpa [Metronome.scheduleGo, if_pos h, Metronome.advanceBeat] using ih m.advanceBeat
    · simp [Metronome.scheduleGo, if_neg h]

/-- A scheduling pass touches only the cursor fields. -/
lemma Metronome.schedulePass_preserves (m : Metronome) (now : ℚ) :
    (m.schedulePass now).1.bpm = m.bpm ∧
    (m.schedulePass now).1.subdivision = m.subdivision ∧
    (m.schedulePass now).1.beatsPerMeasure = m.beatsPerMeasure ∧
    (m.schedulePass now).1.volume = m.volume ∧
    (m.schedulePass now).1.intervalId = m.intervalId ∧
    (m.schedulePass now).1.audioCtx = m.audioCtx :=
  Metronome.scheduleGo_preserves _ m now _

/-- A sequence of scheduling passes touches only the cursor fields. -/
lemma Metronome.runPasses_preserves (nows : List ℚ) (m : Metronome) :
    (m.runPasses nows).1.bpm = m.bpm ∧
    (m.runPasses nows).1.subdivision = m.subdivision ∧
    (m.runPasses nows).1.beatsPerMeasure = m.beatsPerMeasure ∧
    (m.runPasses nows).1.volume = m.volume ∧
    (m.runPasses nows).1.intervalId = m.intervalId ∧
    (m.runPasses nows).1.audioCtx = m.audioCtx := by
  induction nows generalizing m with
  | nil => simp [Metronome.runPasses]
  | cons now rest ih =>
    have hp := m.schedulePass_preserves now
    have hr := ih (m.schedulePass now).1
    simp only [Metronome.runPasses]
    exact ⟨hr.1.trans hp.1, hr.2.1.trans hp.2.1, hr.2.2.1.trans hp.2.2.1,
      hr.2.2.2.1.trans hp.2.2.2.1, hr.2.2.2.2.1.trans hp.2.2.2.2.1,
      hr.2.2.2.2.2.trans hp.2.2.2.2.2⟩

/-- After `start()` the engine is always Running. -/
lemma Metronome.start_isRunning (m : Metronome) (now : ℚ) (lat : Option ℚ) :
    (m.start now lat).1.isRunning = true := by
  rw [Metronome.start]
  by_cases h : m.isRunning = true
  · rw [if_pos h]; exact h
  · rw [if_neg h]; rfl

/-! ## Setter claims -/

/-- C10: the tempo setter leaves the whole Playback Cursor unchanged —
beat index, subdivision index and next-event timestamp are exactly those
before the call. -/
theorem setBpm_preserves_cursor (m : Metronome) (v : ℚ) :
    (m.setBpm v).currentBeat = m.currentBeat ∧
    (m.setBpm v).currentSubdiv = m.currentSubdiv ∧
    (m.setBpm v).nextBeatTime = m.nextBeatTime :=
  ⟨rfl, rfl, rfl⟩

/-- The claim "for n > 0 the subdivision setter stores floor(n)" fails at
n = 1/2: the setter stores `max(1, ⌊1/2⌋) = 1`, not `⌊1/2⌋ = 0`. -/
theorem setSubdivision_fractional_cex :
    (0 : ℚ) < 1/2 ∧
    ((Metronome.init.setSubdivision (1/2)).subdivision : ℤ) ≠ ⌊(1/2 : ℚ)⌋ := by
  have hfl : ⌊(1/2 : ℚ)⌋ = 0 := Int.floor_eq_iff.mpr (by norm_num)
  refine ⟨by norm_num, ?_⟩
  show ((max 1 ⌊(1/2 : ℚ)⌋).toNat : ℤ) ≠ ⌊(1/2 : ℚ)⌋
  rw [hfl]
  norm_num

/-- C6 (amended): the subdivision setter stores `max(1, ⌊n⌋)`; hence it
stores 1 for every input n ≤ 0, and `⌊n⌋` for every input n ≥ 1 (for
0 < n < 1 it stores 1, not `⌊n⌋`).  It also resets the subdivision
cursor to 0. -/
theorem setSubdivision_clamps (m : Metronome) (v : ℚ) :
    (m.setSubdivision v).subdivision = (max 1 ⌊v⌋).toNat ∧
    (v ≤ 0 → (m.setSubdivision v).subdivision = 1) ∧
    (1 ≤ v → ((m.setSubdivision v).subdivision : ℤ) = ⌊v⌋) ∧
    (m.setSubdivision v).currentSubdiv = 0 := by
  refine ⟨rfl, ?_, ?_, rfl⟩
  · intro hv
    have h1 : ⌊v⌋ ≤ 0 := Int.floor_nonpos hv
    show (max 1 ⌊v⌋).toNat = 1
    rw [max_eq_left (h1.trans (by norm_num))]
    rfl
  · intro hv
    have h1 : (1 : ℤ) ≤ ⌊v⌋ := Int.le_floor.mpr (by exact_mod_cast hv)
    show ((max 1 ⌊v⌋).toNat : ℤ) = ⌊v⌋
    rw [max_eq_right h1, Int.toNat_of_nonneg (le_trans (by norm_num) h1)]

/-- Witness for `setSubdivision_clamps` at n = −3 and n = 7/2. -/
theorem setSubdivision_clamps_witness :
    ((-3 : ℚ) ≤ 0 ∧ (Metronome.init.setSubdivision (-3)).subdivision = 1) ∧
    ((1 : ℚ) ≤ 7/2 ∧
      ((Metronome.init.setSubdivision (7/2)).subdivision : ℤ) = ⌊(7/2 : ℚ)⌋) :=
  ⟨⟨by norm_num, (setSubdivision_clamps Metronome.init (-3)).2.1 (by norm_num)⟩,
   ⟨by norm_num, (setSubdivision_clamps Metronome.init (7/2)).2.2.1 (by norm_num)⟩⟩

/-- The claim that the meter setter clamps to a positive integer fails at
input 0: the stored beats-per-measure is 0, which is not positive. -/
theorem setBeatsPerMeasure_not_clamped_cex :
    (Metronome.init.setBeatsPerMeasure 0).beatsPerMeasure = 0 ∧ ¬ (0 : ℚ) > 0 :=
  ⟨rfl, by norm_num⟩

/-- C7 (amended): the meter setter performs no validation or clamping: it
stores its input unchanged and resets the current beat index to 0.  It is
total — no input is ever rejected with an error — so the stored value is a
positive integer only when the input already is one. -/
theorem setBeatsPerMeasure_stores_raw (m : Metronome) (v : ℚ) :
    (m.setBeatsPerMeasure v).beatsPerMeasure = v ∧
    (m.setBeatsPerMeasure v).currentBeat = 0 :=
  ⟨rfl, rfl⟩

/-! ## Run state claims -/

/-- C5: `start()` and `stop()` are idempotent: a second `start()` right
after a first leaves the state unchanged and emits no clicks (the second
call is a no-op when already Running), and a second `stop()` is a no-op
when already Stopped. -/
theorem start_stop_idempotent (m : Metronome) (now now' : ℚ) (lat lat' : Option ℚ) :
    ((m.start now lat).1.start now' lat').1 = (m.start now lat).1 ∧
    ((m.start now lat).1.start now' lat').2 = [] ∧
    m.stop.stop = m.stop ∧
    (m.isRunning = true → m.start now lat = (m, [])) ∧
    (m.isRunning = false → m.stop = m) := by
  have hrun := m.start_isRunning now lat
  have hsecond : (m.start now lat).1.start now' lat' = ((m.start now lat).1, []) := by
    rw [Metronome.start, if_pos hrun]
  have hstopnr : ∀ mm : Metronome, mm.isRunning = false → mm.stop = mm := by
    intro mm h
    rw [Metronome.stop, if_neg (by simp [h])]
  refine ⟨by rw [hsecond], by rw [hsecond], ?_, ?_, hstopnr m⟩
  · have hs : m.stop.isRunning = false := by
      rw [Metronome.stop]
      by_cases h : m.isRunning = true
      · rw [if_pos h]; rfl
      · rw [if_neg h]; simpa using h
    exact hstopnr _ hs
  · intro h
    rw [Metronome.start, if_pos h]

/-- Witness for `start_stop_idempotent`: a running state's `start()` is a
no-op, a stopped state's `stop()` is a no-op. -/
theorem start_stop_idempotent_witness :
    (runningExample.isRunning = true ∧ runningExample.start 0 none = (runningExample, [])) ∧
    (Metronome.init.isRunning = false ∧ Metronome.init.stop = Metronome.init) :=
  ⟨⟨rfl, (start_stop_idempotent runningExample 0 0 none none).2.2.2.1 rfl⟩,
   ⟨rfl, (start_stop_idempotent Metronome.init 0 0 none none).2.2.2.2 rfl⟩⟩

/-- C9: the public running flag holds exactly when the polling-interval
handle is non-null; the four setters never touch that handle (so never
change the Run State); `start()` always leaves the engine Running and
`stop()` always leaves it Stopped. -/
theorem run_state_invariant (m : Metronome) (v : ℚ) (now : ℚ) (lat : Option ℚ) :
    (m.isRunning = true ↔ m.intervalId ≠ none) ∧
    (m.setBpm v).intervalId = m.intervalId ∧
    (m.setBeatsPerMeasure v).intervalId = m.intervalId ∧
    (m.setSubdivision v).intervalId = m.intervalId ∧
    (m.setVolume v).intervalId = m.intervalId ∧
    (m.start now lat).1.isRunning = true ∧
    m.stop.isRunning = false := by
  refine ⟨?_, rfl, rfl, rfl, rfl, m.start_isRunning now lat, ?_⟩
  · simp [Metronome.isRunning, Option.isSome_iff_ne_none]
  · rw [Metronome.stop]
    by_cases h : m.isRunning = true
    · rw [if_pos h]; rfl
    · rw [if_neg h]; simpa using h

/-! ## Cursor arithmetic -/

/-- JS `%` agrees with `Nat.mod` on casts of naturals. -/
lemma jsFmod_natCast (a b : ℕ) :
    jsFmod (a : ℚ) (b : ℚ) = ((a % b : ℕ) : ℚ) := by
  rcases Nat.eq_zero_or_pos b with hb | hb
  · subst hb
    simp [jsFmod, jsTrunc]
  · have hbq : (0 : ℚ) < (b : ℚ) := by exact_mod_cast hb
    have hnn : (0 : ℚ) ≤ (a : ℚ) / (b : ℚ) := by positivity
    have hfl : ⌊(a : ℚ) / (b : ℚ)⌋ = ((a / b : ℕ) : ℤ) := by
      rw [Rat.floor_natCast_div_natCast a b, Int.natCast_div]
    rw [jsFmod, jsTrunc, if_pos hnn, hfl, Int.cast_natCast]
    have h : a % b + b * (a / b) = a := Nat.mod_add_div a b
    have hq : ((a % b : ℕ) : ℚ) + (b : ℚ) * ((a / b : ℕ) : ℚ) = (a : ℚ) := by
      exact_mod_cast congrArg (fun n : ℕ => (n : ℚ)) h
    linarith

/-- `_advanceBeat` does not change the subdivision interval. -/
lemma Metronome.advanceBeat_secondsPerClick (m : Metronome) :
    m.advanceBeat.secondsPerClick = m.secondsPerClick := rfl

/-- Stepping the cursor from global click index `k` lands on index `k+1`:
the `(beat, subdiv)` cursor follows the row-major enumeration of
`[0,M) × [0,S)`. -/
lemma Metronome.advanceBeat_cursor (M S : ℕ) (m : Metronome) (k : ℕ)
    (hsub : m.subdivision = S) (hmet : m.beatsPerMeasure = (M : ℚ))
    (hcs : m.currentSubdiv = k % S)
    (hcb : m.currentBeat = ((k / S % M : ℕ) : ℚ)) :
    m.advanceBeat.currentSubdiv = (k + 1) % S ∧
    m.advanceBeat.currentBeat = (((k + 1) / S % M : ℕ) : ℚ) := by
  have hs' : (m.currentSubdiv + 1) % m.subdivision = (k + 1) % S := by
    rw [hcs, hsub, Nat.mod_add_mod]
  refine ⟨hs', ?_⟩
  show (if (m.currentSubdiv + 1) % m.subdivision = 0 then
      jsFmod (m.currentBeat + 1) m.beatsPerMeasure else m.currentBeat) = _
  rw [hs']
  by_cases hz : (k + 1) % S = 0
  · rw [if_pos hz, hmet, hcb]
    have hdvd : S ∣ (k + 1) := Nat.dvd_of_mod_eq_zero hz
    have hsucc : (k + 1) / S = k / S + 1 := Nat.succ_div_of_dvd hdvd
    have hone : ((k / S % M : ℕ) : ℚ) + 1 = (((k / S % M) + 1 : ℕ) : ℚ) := by
      push_cast
      ring
    rw [hone, jsFmod_natCast]
    have hnat : (k / S % M + 1) % M = (k + 1) / S % M := by
      rw [hsucc, Nat.mod_add_mod]
    rw [hnat]
  · rw [if_neg hz, hcb]
    have hndvd : ¬ S ∣ (k + 1) := fun hd => hz (Nat.mod_eq_zero_of_dvd hd)
    have hsucc : (k + 1) / S = k / S := Nat.succ_div_of_not_dvd hndvd
    rw [hsucc]

/-- The clicks of one loop run are consecutive cursor positions: starting
from global click index `k`, the `i`-th emitted click carries the pair of
index `k + i`, and the final cursor sits at index `k + (number emitted)`. -/
lemma Metronome.scheduleGo_spec (M S : ℕ) :
    ∀ (fuel : ℕ) (m : Metronome) (now u : ℚ) (k : ℕ),
      m.subdivision = S → m.beatsPerMeasure = (M : ℚ) →
      m.currentSubdiv = k % S → m.currentBeat = ((k / S % M : ℕ) : ℚ) →
      (∀ i (h : i < (Metronome.scheduleGo fuel m now u).2.length),
          ((Metronome.scheduleGo fuel m now u).2.get ⟨i, h⟩).subdiv = (k + i) % S ∧
          ((Metronome.scheduleGo fuel m now u).2.get ⟨i, h⟩).beat
            = (((k + i) / S % M : ℕ) : ℚ)) ∧
      (Metronome.scheduleGo fuel m now u).1.currentSubdiv
          = (k + (Metronome.scheduleGo fuel m now u).2.length) % S ∧
      (Metronome.scheduleGo fuel m now u).1.currentBeat
          = (((k + (Metronome.scheduleGo fuel m now u).2.length) / S % M : ℕ) : ℚ) := by
  intro fuel
  induction fuel with
  | zero =>
    intro m now u k hsub hmet hcs hcb
    refine ⟨fun i h => absurd h (by simp [Metronome.scheduleGo]), ?_, ?_⟩
    · simpa [Metronome.scheduleGo] using hcs
    · simpa [Metronome.scheduleGo] using hcb
  | succ n ih =>
    intro m now u k hsub hmet hcs hcb
    by_cases h : m.nextBeatTime < u
    · have hstep := Metronome.advanceBeat_cursor M S m k hsub hmet hcs hcb
      have hrec := ih m.advanceBeat now u (k + 1) hsub hmet hstep.1 hstep.2
      have hgo : Metronome.scheduleGo (n + 1) m now u
          = ((Metronome.scheduleGo n m.advanceBeat now u).1,
             m.scheduleClick now :: (Metronome.scheduleGo n m.advanceBeat now u).2) := by
        simp only [Metronome.scheduleGo]
        rw [if_pos h]
      rw [hgo]
      simp only [List.length_cons]
      refine ⟨?_, ?_, ?_⟩
      · intro i hlen
        match i, hlen with
        | 0, _ =>
          refine ⟨?_, ?_⟩
          · show m.currentSubdiv = (k + 0) % S
            simpa using hcs
          · show m.currentBeat = (((k + 0) / S % M : ℕ) : ℚ)
            simpa using hcb
        | j + 1, hlen =>
          have hlen' : j < (Metronome.scheduleGo n m.advanceBeat now u).2.length :=
            Nat.lt_of_succ_lt_succ hlen
          have hj := hrec.1 j hlen'
          have hadd : k + 1 + j = k + (j + 1) := by omega
          refine ⟨?_, ?_⟩
          · show ((Metronome.scheduleGo n m.advanceBeat now u).2.get ⟨j, hlen'⟩).subdiv
                = (k + (j + 1)) % S
            rw [hj.1, hadd]
          · show ((Metronome.scheduleGo n m.advanceBeat now u).2.get ⟨j, hlen'⟩).beat
                = (((k + (j + 1)) / S % M : ℕ) : ℚ)
            rw [hj.2, hadd]
      · have hadd : k + 1 + (Metronome.scheduleGo n m.advanceBeat now u).2.length
            = k + ((Metronome.scheduleGo n m.advanceBeat now u).2.length + 1) := by omega
        rw [hrec.2.1, hadd]
      · have hadd : k + 1 + (Metronome.scheduleGo n m.advanceBeat now u).2.length
            = k + ((Metronome.scheduleGo n m.advanceBeat now u).2.length + 1) := by omega
        rw [hrec.2.2, hadd]
    · have hgo : Metronome.scheduleGo (n + 1) m now u = (m, []) := by
        simp only [Metronome.scheduleGo]
        rw [if_neg h]
      rw [hgo]
      refine ⟨fun i hh => absurd hh (by simp), ?_, ?_⟩
      · simpa using hcs
      · simpa using hcb

/-- Every emitted click is well-formed: the UI callback flag marks exactly
the subdivision-0 clicks, the pitch is accent/beat/subdivision according
to the carried pair, and the gain is the engine volume (its reduced value
on subdivision clicks) floored at `0.0001`. -/
lemma Metronome.scheduleGo_click_props (fuel : ℕ) :
    ∀ (m : Metronome) (now u : ℚ),
      ∀ c ∈ (Metronome.scheduleGo fuel m now u).2,
        (c.uiCallback = true ↔ c.subdiv = 0) ∧
        (c.beat = 0 ∧ c.subdiv = 0 → c.freq = FREQ_ACCENT) ∧
        (c.beat ≠ 0 ∧ c.subdiv = 0 → c.freq = FREQ_NORMAL) ∧
        (c.subdiv ≠ 0 → c.freq = 600 ∧ c.vol = max (m.volume * (45/100)) (1/10000)) ∧
        (c.subdiv = 0 → c.vol = max m.volume (1/10000)) := by
  induction fuel with
  | zero =>
    intro m now u c hc
    simp [Metronome.scheduleGo] at hc
  | succ n ih =>
    intro m now u c hc
    by_cases h : m.nextBeatTime < u
    · have hgo : Metronome.scheduleGo (n + 1) m now u
          = ((Metronome.scheduleGo n m.advanceBeat now u).1,
             m.scheduleClick now :: (Metronome.scheduleGo n m.advanceBeat now u).2) := by
        simp only [Metronome.scheduleGo]
        rw [if_pos h]
      rw [hgo] at hc
      rcases List.mem_cons.mp hc with hc | hc
      · subst hc
        refine ⟨?_, ?_, ?_, ?_, ?_⟩
        · simp [Metronome.scheduleClick]
        · intro hcond
          simp only [Metronome.scheduleClick] at hcond ⊢
          simp [hcond.1, hcond.2]
        · intro hcond
          simp only [Metronome.scheduleClick] at hcond ⊢
          simp [hcond.1, hcond.2]
        · intro hcond
          simp only [Metronome.scheduleClick] at hcond ⊢
          simp [hcond]
        · intro hcond
          simp only [Metronome.scheduleClick] at hcond ⊢
          simp [hcond]
      · have hv : m.advanceBeat.volume = m.volume := rfl
        simpa [hv] using ih m.advanceBeat now u c hc
    · have hgo : Metronome.scheduleGo (n + 1) m now u = (m, []) := by
        simp only [Metronome.scheduleGo]
        rw [if_neg h]
      rw [hgo] at hc
      simp at hc

/-- Click timestamps never precede the cursor's next-event time, and the
cursor's next-event time never decreases across a loop run. -/
lemma Metronome.scheduleGo_time_lb (fuel : ℕ) :
    ∀ (m : Metronome) (now u : ℚ), 0 ≤ m.secondsPerClick →
      (∀ c ∈ (Metronome.scheduleGo fuel m now u).2, m.nextBeatTime ≤ c.time) ∧
      m.nextBeatTime ≤ (Metronome.scheduleGo fuel m now u).1.nextBeatTime := by
  induction fuel with
  | zero =>
    intro m now u hd
    exact ⟨by simp [Metronome.scheduleGo], by simp [Metronome.scheduleGo]⟩
  | succ n ih =>
    intro m now u hd
    by_cases h : m.nextBeatTime < u
    · have hgo : Metronome.scheduleGo (n + 1) m now u
          = ((Metronome.scheduleGo n m.advanceBeat now u).1,
             m.scheduleClick now :: (Metronome.scheduleGo n m.advanceBeat now u).2) := by
        simp only [Metronome.scheduleGo]
        rw [if_pos h]
      have hd' : 0 ≤ m.advanceBeat.secondsPerClick := by
        rw [Metronome.advanceBeat_secondsPerClick]
        exact hd
      have hrec := ih m.advanceBeat now u hd'
      have hstep : m.nextBeatTime ≤ m.advanceBeat.nextBeatTime := by
        show m.nextBeatTime ≤ m.nextBeatTime + m.secondsPerClick
        linarith
      rw [hgo]
      refine ⟨?_, hstep.trans hrec.2⟩
      intro c hc
      rcases List.mem_cons.mp hc with hc | hc
      · subst hc
        exact le_of_eq rfl
      · exact hstep.trans (hrec.1 c hc)
    · have hgo : Metronome.scheduleGo (n + 1) m now u = (m, []) := by
        simp only [Metronome.scheduleGo]
        rw [if_neg h]
      rw [hgo]
      exact ⟨by simp, le_refl _⟩

/-- A loop run emits at most `fuel` clicks. -/
lemma Metronome.scheduleGo_length_le (fuel : ℕ) :
    ∀ (m : Metronome) (now u : ℚ),
      (Metronome.scheduleGo fuel m now u).2.length ≤ fuel := by
  induction fuel with
  | zero =>
    intro m now u
    simp [Metronome.scheduleGo]
  | succ n ih =>
    intro m now u
    by_cases h : m.nextBeatTime < u
    · have hgo : Metronome.scheduleGo (n + 1) m now u
          = ((Metronome.scheduleGo n m.advanceBeat now u).1,
             m.scheduleClick now :: (Metronome.scheduleGo n m.advanceBeat now u).2) := by
        simp only [Metronome.scheduleGo]
        rw [if_pos h]
      rw [hgo]
      simpa [List.length_cons] using Nat.succ_le_succ (ih m.advanceBeat now u)
    · have hgo : Metronome.scheduleGo (n + 1) m now u = (m, []) := by
        simp only [Metronome.scheduleGo]
        rw [if_neg h]
      rw [hgo]
      simp

/-- With at least `⌈(scheduleUntil - nextBeatTime) / interval⌉` fuel, the
loop drains completely: it stops only once the next-event time has reached
the lookahead horizon — exactly the exit condition of the source's
unbounded `while` loop. -/
lemma Metronome.scheduleGo_drains (fuel : ℕ) :
    ∀ (m : Metronome) (now u : ℚ), 0 < m.secondsPerClick →
      (⌈(u - m.nextBeatTime) / m.secondsPerClick⌉).toNat ≤ fuel →
      u ≤ (Metronome.scheduleGo fuel m now u).1.nextBeatTime := by
  induction fuel with
  | zero =>
    intro m now u hd hfuel
    have h0 : ⌈(u - m.nextBeatTime) / m.secondsPerClick⌉ ≤ 0 := by omega
    have h2 : (u - m.nextBeatTime) / m.secondsPerClick ≤ ((0 : ℤ) : ℚ) :=
      Int.ceil_le.mp h0
    have h3 : u - m.nextBeatTime ≤ 0 := by
      by_contra hpos
      push_neg at hpos
      have : 0 < (u - m.nextBeatTime) / m.secondsPerClick := div_pos (by linarith) hd
      rw [Int.cast_zero] at h2
      linarith
    have : u ≤ m.nextBeatTime := by linarith
    simpa [Metronome.scheduleGo] using this
  | succ n ih =>
    intro m now u hd hfuel
    by_cases h : m.nextBeatTime < u
    · have hgo : Metronome.scheduleGo (n + 1) m now u
          = ((Metronome.scheduleGo n m.advanceBeat now u).1,
             m.scheduleClick now :: (Metronome.scheduleGo n m.advanceBeat now u).2) := by
        simp only [Metronome.scheduleGo]
        rw [if_pos h]
      rw [hgo]
      have hd' : 0 < m.advanceBeat.secondsPerClick := by
        rw [Metronome.advanceBeat_secondsPerClick]
        exact hd
      apply ih m.advanceBeat now u hd'
      have hne : m.secondsPerClick ≠ 0 := ne_of_gt hd
      have hstep : (u - m.advanceBeat.nextBeatTime) / m.advanceBeat.secondsPerClick
          = (u - m.nextBeatTime) / m.secondsPerClick - 1 := by
        rw [Metronome.advanceBeat_secondsPerClick]
        show (u - (m.nextBeatTime + m.secondsPerClick)) / m.secondsPerClick = _
        field_simp
        ring
      have hceil : ⌈(u - m.advanceBeat.nextBeatTime) / m.advanceBeat.secondsPerClick⌉
          = ⌈(u - m.nextBeatTime) / m.secondsPerClick⌉ - 1 := by
        rw [hstep, Int.ceil_sub_one]
      have hposd : 0 < (u - m.nextBeatTime) / m.secondsPerClick := div_pos (by linarith) hd
      have h1 : 0 < ⌈(u - m.nextBeatTime) / m.secondsPerClick⌉ := by
        rw [Int.lt_ceil]
        exact_mod_cast hposd
      rw [hceil]
      omega
    · have hgo : Metronome.scheduleGo (n + 1) m now u = (m, []) := by
        simp only [Metronome.scheduleGo]
        rw [if_neg h]
      rw [hgo]
      exact le_of_not_lt h

/-- A scheduling pass leaves the subdivision interval unchanged. -/
lemma Metronome.schedulePass_secondsPerClick (m : Metronome) (now : ℚ) :
    (m.schedulePass now).1.secondsPerClick = m.secondsPerClick := by
  have hp := m.schedulePass_preserves now
  unfold Metronome.secondsPerClick
  rw [hp.1, hp.2.1]

/-- A scheduling pass with a positive subdivision interval fully drains
the lookahead window. -/
lemma Metronome.schedulePass_drains (m : Metronome) (now : ℚ)
    (hd : 0 < m.secondsPerClick) :
    now + SCHEDULE_AHEAD_TIME ≤ (m.schedulePass now).1.nextBeatTime :=
  Metronome.scheduleGo_drains _ m now _ hd (le_of_eq rfl)

/-- Click timestamps across any pass sequence never precede the cursor's
next-event time at the start, which itself never decreases. -/
lemma Metronome.runPasses_time_lb (nows : List ℚ) :
    ∀ (m : Metronome), 0 ≤ m.secondsPerClick →
      (∀ c ∈ (m.runPasses nows).2, m.nextBeatTime ≤ c.time) ∧
      m.nextBeatTime ≤ (m.runPasses nows).1.nextBeatTime := by
  induction nows with
  | nil =>
    intro m hd
    exact ⟨by simp [Metronome.runPasses], by simp [Metronome.runPasses]⟩
  | cons now rest ih =>
    intro m hd
    have hpass := Metronome.scheduleGo_time_lb
      (m.scheduleFuel (now + SCHEDULE_AHEAD_TIME)) m now (now + SCHEDULE_AHEAD_TIME) hd
    have hd' : 0 ≤ (m.schedulePass now).1.secondsPerClick := by
      rw [Metronome.schedulePass_secondsPerClick]
      exact hd
    have hrec := ih (m.schedulePass now).1 hd'
    have hru : m.runPasses (now :: rest)
        = (((m.schedulePass now).1.runPasses rest).1,
           (m.schedulePass now).2 ++ ((m.schedulePass now).1.runPasses rest).2) := rfl
    rw [hru]
    constructor
    · intro c hc
      rcases List.mem_append.mp hc with hc | hc
      · exact hpass.1 c hc
      · exact hpass.2.trans (hrec.1 c hc)
    · exact hpass.2.trans hrec.2

/-- Across successive scheduling passes, emitted clicks stay consecutive
cursor positions: from global click index `k`, the `i`-th click of the
concatenated output carries the pair of index `k + i`. -/
lemma Metronome.runPasses_spec (M S : ℕ) :
    ∀ (nows : List ℚ) (m : Metronome) (k : ℕ),
      m.subdivision = S → m.beatsPerMeasure = (M : ℚ) →
      m.currentSubdiv = k % S → m.currentBeat = ((k / S % M : ℕ) : ℚ) →
      (∀ i (h : i < (m.runPasses nows).2.length),
          ((m.runPasses nows).2.get ⟨i, h⟩).subdiv = (k + i) % S ∧
          ((m.runPasses nows).2.get ⟨i, h⟩).beat = (((k + i) / S % M : ℕ) : ℚ)) ∧
      (m.runPasses nows).1.currentSubdiv = (k + (m.runPasses nows).2.length) % S ∧
      (m.runPasses nows).1.currentBeat
        = (((k + (m.runPasses nows).2.length) / S % M : ℕ) : ℚ) := by
  intro nows
  induction nows with
  | nil =>
    intro m k hsub hmet hcs hcb
    refine ⟨fun i h => absurd h (by simp [Metronome.runPasses]), ?_, ?_⟩
    · simpa [Metronome.runPasses] using hcs
    · simpa [Metronome.runPasses] using hcb
  | cons now rest ih =>
    intro m k hsub hmet hcs hcb
    have hpass :
        (∀ i (h : i < (m.schedulePass now).2.length),
            ((m.schedulePass now).2.get ⟨i, h⟩).subdiv = (k + i) % S ∧
            ((m.schedulePass now).2.get ⟨i, h⟩).beat = (((k + i) / S % M : ℕ) : ℚ)) ∧
        (m.schedulePass now).1.currentSubdiv
            = (k + (m.schedulePass now).2.length) % S ∧
        (m.schedulePass now).1.currentBeat
            = (((k + (m.schedulePass now).2.length) / S % M : ℕ) : ℚ) :=
      Metronome.scheduleGo_spec M S _ m now _ k hsub hmet hcs hcb
    have hp := m.schedulePass_preserves now
    have hsub1 : (m.schedulePass now).1.subdivision = S := hp.2.1.trans hsub
    have hmet1 : (m.schedulePass now).1.beatsPerMeasure = (M : ℚ) := hp.2.2.1.trans hmet
    have hrec := ih (m.schedulePass now).1 (k + (m.schedulePass now).2.length)
      hsub1 hmet1 hpass.2.1 hpass.2.2
    have hru : m.runPasses (now :: rest)
        = (((m.schedulePass now).1.runPasses rest).1,
           (m.schedulePass now).2 ++ ((m.schedulePass now).1.runPasses rest).2) := rfl
    rw [hru]
    simp only [List.length_append]
    refine ⟨?_, ?_, ?_⟩
    · intro i h
      rw [List.get_eq_getElem]
      by_cases h1 : i < (m.schedulePass now).2.length
      · rw [List.getElem_append_left h1]
        have := hpass.1 i h1
        rw [List.get_eq_getElem] at this
        exact this
      · push_neg at h1
        have h2 : i - (m.schedulePass now).2.length
            < ((m.schedulePass now).1.runPasses rest).2.length := by
          omega
        rw [List.getElem_append_right h1]
        have := hrec.1 (i - (m.schedulePass now).2.length) h2
        rw [List.get_eq_getElem] at this
        have hadd : k + (m.schedulePass now).2.length
            + (i - (m.schedulePass now).2.length) = k + i := by omega
        rw [hadd] at this
        exact this
    · have := hrec.2.1
      have hadd : k + (m.schedulePass now).2.length
          + ((m.schedulePass now).1.runPasses rest).2.length
          = k + ((m.schedulePass now).2.length
              + ((m.schedulePass now).1.runPasses rest).2.length) := by omega
      rw [hadd] at this
      exact this
    · have := hrec.2.2
      have hadd : k + (m.schedulePass now).2.length
          + ((m.schedulePass now).1.runPasses rest).2.length
          = k + ((m.schedulePass now).2.length
              + ((m.schedulePass now).1.runPasses rest).2.length) := by omega
      rw [hadd] at this
      exact this

/-- Click well-formedness lifts to pass sequences. -/
lemma Metronome.runPasses_click_props (nows : List ℚ) :
    ∀ (m : Metronome), ∀ c ∈ (m.runPasses nows).2,
      (c.uiCallback = true ↔ c.subdiv = 0) ∧
      (c.beat = 0 ∧ c.subdiv = 0 → c.freq = FREQ_ACCENT) ∧
      (c.beat ≠ 0 ∧ c.subdiv = 0 → c.freq = FREQ_NORMAL) ∧
      (c.subdiv ≠ 0 → c.freq = 600 ∧ c.vol = max (m.volume * (45/100)) (1/10000)) ∧
      (c.subdiv = 0 → c.vol = max m.volume (1/10000)) := by
  induction nows with
  | nil =>
    intro m c hc
    simp [Metronome.runPasses] at hc
  | cons now rest ih =>
    intro m c hc
    have hru : m.runPasses (now :: rest)
        = (((m.schedulePass now).1.runPasses rest).1,
           (m.schedulePass now).2 ++ ((m.schedulePass now).1.runPasses rest).2) := rfl
    rw [hru] at hc
    rcases List.mem_append.mp hc with hc | hc
    · exact Metronome.scheduleGo_click_props _ m now _ c hc
    · have hv : (m.schedulePass now).1.volume = m.volume := (m.schedulePass_preserves now).2.2.2.1
      have := ih (m.schedulePass now).1 c hc
      rw [hv] at this
      exact this

/-! ## Scheduling claims -/

/-- C1: from a fresh start (cursor at beat 0, subdivision 0) with meter
`M ≥ 1` and subdivision `S ≥ 1` held fixed and no recovery re-anchor, the
`k`-th click emitted across successive scheduling passes carries the pair
`(⌊k/S⌋ mod M, k mod S)` — the row-major enumeration of `[0,M) × [0,S)`
cycling indefinitely — and the beat callback is scheduled exactly for the
clicks whose subdivision index is 0. -/
theorem beat_sequence_rowmajor (M S : ℕ) (hM : 1 ≤ M) (hS : 1 ≤ S)
    (m : Metronome) (hsub : m.subdivision = S) (hmet : m.beatsPerMeasure = (M : ℚ))
    (hcs : m.currentSubdiv = 0) (hcb : m.currentBeat = 0)
    (nows : List ℚ) (k : ℕ) (hk : k < (m.runPasses nows).2.length) :
    ((m.runPasses nows).2.get ⟨k, hk⟩).beat = ((k / S % M : ℕ) : ℚ) ∧
    ((m.runPasses nows).2.get ⟨k, hk⟩).subdiv = k % S ∧
    (((m.runPasses nows).2.get ⟨k, hk⟩).uiCallback = true ↔ k % S = 0) := by
  have h0cs : m.currentSubdiv = 0 % S := by rw [hcs, Nat.zero_mod]
  have h0cb : m.currentBeat = ((0 / S % M : ℕ) : ℚ) := by
    rw [hcb]
    simp
  obtain ⟨hidx, -, -⟩ := Metronome.runPasses_spec M S nows m 0 hsub hmet h0cs h0cb
  have h := hidx k hk
  have hz : 0 + k = k := by omega
  rw [hz] at h
  have hmem : (m.runPasses nows).2.get ⟨k, hk⟩ ∈ (m.runPasses nows).2 :=
    List.get_mem _ _ hk
  have hprops := Metronome.runPasses_click_props nows m _ hmem
  refine ⟨h.2, h.1, ?_⟩
  have hcall := hprops.1
  rw [h.1] at hcall
  exact hcall

/-- One click is emitted by a single pass from the fresh-start state. -/
theorem freshStart_emits : 0 < (freshStartState.runPasses [0]).2.length := by
  have hfuel : freshStartState.scheduleFuel (0 + SCHEDULE_AHEAD_TIME) = 1 := by
    apply Metronome.scheduleFuel_eq <;>
      norm_num [freshStartState, Metronome.secondsPerClick, SCHEDULE_AHEAD_TIME]
  have hru : freshStartState.runPasses [0]
      = (((freshStartState.schedulePass 0).1.runPasses []).1,
         (freshStartState.schedulePass 0).2
           ++ ((freshStartState.schedulePass 0).1.runPasses []).2) := rfl
  rw [hru]
  rw [Metronome.schedulePass, hfuel]
  norm_num [Metronome.scheduleGo, Metronome.runPasses, freshStartState,
    SCHEDULE_AHEAD_TIME]

/-- Witness for `beat_sequence_rowmajor`: meter 4, subdivision 2, first
emitted click carries (0, 0) and schedules the beat callback. -/
theorem beat_sequence_rowmajor_witness :
    (1 ≤ 4 ∧ 1 ≤ 2) ∧
    ((freshStartState.runPasses [0]).2.get ⟨0, freshStart_emits⟩).beat
        = ((0 / 2 % 4 : ℕ) : ℚ) ∧
    ((freshStartState.runPasses [0]).2.get ⟨0, freshStart_emits⟩).subdiv = 0 % 2 ∧
    (((freshStartState.runPasses [0]).2.get ⟨0, freshStart_emits⟩).uiCallback = true
        ↔ 0 % 2 = 0) :=
  ⟨⟨by norm_num, by norm_num⟩,
   beat_sequence_rowmajor 4 2 (by norm_num) (by norm_num) freshStartState rfl
     (by norm_num [freshStartState]) rfl rfl [0] 0 freshStart_emits⟩

/-- C2: whenever a recovery re-anchor runs — `recoverPlayback` (as invoked
by the visibility handler) or the statechange handler on the clock's
transition into Running — while the engine is Running, the next-event
timestamp immediately afterwards equals clock-now plus the safety margin
(`baseLatency || 0.01`), is never earlier than clock-now, and every click
emitted by subsequent scheduling passes carries a timestamp at or after
that anchor: no backlog of past-timestamped clicks is replayed,
regardless of how long the interruption gap lasted. -/
theorem recovery_reanchor (m : Metronome) (now : ℚ) (lat : Option ℚ)
    (hctx : m.audioCtx = true) (hrun : m.isRunning = true)
    (hlat : ∀ x, lat = some x → 0 ≤ x) (hbpm : 0 < m.bpm) :
    (m.recoverPlayback now lat).nextBeatTime = now + jsOr lat (1/100) ∧
    now ≤ (m.recoverPlayback now lat).nextBeatTime ∧
    (∀ nows, ∀ c ∈ ((m.recoverPlayback now lat).runPasses nows).2,
        now + jsOr lat (1/100) ≤ c.time ∧ now ≤ c.time) ∧
    (m.onStatechange CtxState.running now lat).nextBeatTime
        = now + jsOr lat (1/100) ∧
    m.onVisibilitychange true now lat = m.recoverPlayback now lat ∧
    (∀ nows, ∀ c ∈ ((m.onStatechange CtxState.running now lat).runPasses nows).2,
        now ≤ c.time) := by
  have hmargin : 0 ≤ jsOr lat (1/100) := by
    cases lat with
    | none => norm_num [jsOr]
    | some x =>
      by_cases hx : x = 0
      · norm_num [jsOr, hx]
      · simp only [jsOr, if_neg hx]
        exact hlat x rfl
  have hbq : (0 : ℚ) < (m.bpm : ℚ) := by exact_mod_cast hbpm
  have hd : 0 ≤ m.secondsPerClick :=
    div_nonneg (le_of_lt (div_pos (by norm_num) hbq)) (Nat.cast_nonneg _)
  have hrec : m.recoverPlayback now lat
      = { m with nextBeatTime := now + jsOr lat (1/100) } := by
    unfold Metronome.recoverPlayback
    rw [hctx]
    simp [hrun]
  have hst : m.onStatechange CtxState.running now lat
      = { m with nextBeatTime := now + jsOr lat (1/100) } := by
    unfold Metronome.onStatechange
    simp [hrun]
  have hd' : 0 ≤ ({ m with nextBeatTime := now + jsOr lat (1/100) }
      : Metronome).secondsPerClick := hd
  refine ⟨by rw [hrec], by rw [hrec]; linarith, ?_, by rw [hst], ?_, ?_⟩
  · intro nows c hc
    rw [hrec] at hc
    have := (Metronome.runPasses_time_lb nows _ hd').1 c hc
    exact ⟨this, by linarith⟩
  · unfold Metronome.onVisibilitychange
    simp [hrun]
  · intro nows c hc
    rw [hst] at hc
    have := (Metronome.runPasses_time_lb nows _ hd').1 c hc
    linarith

/-- Witness for `recovery_reanchor`: a running engine with absent reported
latency, recovering at clock time 7, re-anchors to 7 + 0.01 ≥ 7. -/
theorem recovery_reanchor_witness :
    (runningExample.audioCtx = true ∧ runningExample.isRunning = true ∧
      0 < runningExample.bpm) ∧
    (runningExample.recoverPlayback 7 none).nextBeatTime = 7 + jsOr none (1/100) ∧
    (7 : ℚ) ≤ (runningExample.recoverPlayback 7 none).nextBeatTime :=
  ⟨⟨rfl, rfl, by decide⟩,
   (recovery_reanchor runningExample 7 none rfl rfl (fun x h => nomatch h)
     (by decide)).1,
   (recovery_reanchor runningExample 7 none rfl rfl (fun x h => nomatch h)
     (by decide)).2.1⟩

/-- C3 (amended): the click at beat 0, subdivision 0 always sounds at the
distinguished highest pitch (1500 Hz), every other beat-aligned click at
the middle pitch (1000 Hz), and every subdivision click at the lowest
pitch (600 Hz) with gain exactly `volume × 0.45` — for every configured
volume in [1/4500, 1]; below 1/4500 the source floors the subdivision
gain at 0.0001 instead of `volume × 0.45`. -/
theorem accent_and_subdivision_pitch (m : Metronome) (nows : List ℚ)
    (hv1 : 1/4500 ≤ m.volume) (hv2 : m.volume ≤ 1) :
    ((600 : ℚ) < FREQ_NORMAL ∧ FREQ_NORMAL < FREQ_ACCENT) ∧
    ∀ c ∈ (m.runPasses nows).2,
      (c.beat = 0 ∧ c.subdiv = 0 → c.freq = FREQ_ACCENT) ∧
      (c.beat ≠ 0 ∧ c.subdiv = 0 → c.freq = FREQ_NORMAL) ∧
      (0 < c.subdiv → c.freq = 600 ∧ c.vol = m.volume * (45/100)) := by
  refine ⟨by norm_num [FREQ_NORMAL, FREQ_ACCENT], ?_⟩
  intro c hc
  have h := Metronome.runPasses_click_props nows m c hc
  refine ⟨h.2.1, h.2.2.1, ?_⟩
  intro hpos
  have hne : c.subdiv ≠ 0 := Nat.pos_iff_ne_zero.mp hpos
  obtain ⟨hf, hv⟩ := h.2.2.2.1 hne
  refine ⟨hf, ?_⟩
  rw [hv, max_eq_left]
  linarith

/-- Witness for `accent_and_subdivision_pitch` at volume 4/5. -/
theorem accent_pitch_witness :
    ((1/4500 : ℚ) ≤ freshStartState.volume ∧ freshStartState.volume ≤ 1) ∧
    (((600 : ℚ) < FREQ_NORMAL ∧ FREQ_NORMAL < FREQ_ACCENT) ∧
      ∀ c ∈ (freshStartState.runPasses [0]).2,
        (c.beat = 0 ∧ c.subdiv = 0 → c.freq = FREQ_ACCENT) ∧
        (c.beat ≠ 0 ∧ c.subdiv = 0 → c.freq = FREQ_NORMAL) ∧
        (0 < c.subdiv → c.freq = 600 ∧
          c.vol = freshStartState.volume * (45/100))) :=
  ⟨⟨by norm_num [freshStartState], by norm_num [freshStartState]⟩,
   accent_and_subdivision_pitch freshStartState [0]
     (by norm_num [freshStartState]) (by norm_num [freshStartState])⟩

/-- The volume clause of the claim fails at configured volume 0: the
emitted subdivision click's gain is the 0.0001 floor, not `0 × 0.45`. -/
theorem subdivision_volume_floor_cex :
    ((volumeZeroState.schedulePass (1/20)).2.map (fun c => (c.subdiv, c.vol)))
      = [(0, 1/10000), (1, 1/10000)] ∧
    volumeZeroState.volume * (45/100) = 0 ∧
    (1/10000 : ℚ) ≠ volumeZeroState.volume * (45/100) := by
  have hfuel : volumeZeroState.scheduleFuel (1/20 + SCHEDULE_AHEAD_TIME) = 2 := by
    apply Metronome.scheduleFuel_eq <;>
      norm_num [volumeZeroState, Metronome.secondsPerClick, SCHEDULE_AHEAD_TIME]
  refine ⟨?_, by norm_num [volumeZeroState], by norm_num [volumeZeroState]⟩
  rw [Metronome.schedulePass, hfuel]
  norm_num [Metronome.scheduleGo, Metronome.advanceBeat, Metronome.scheduleClick,
    Metronome.secondsPerClick, volumeZeroState, SCHEDULE_AHEAD_TIME]

/-- C4 (amended): provided the clock has not overtaken the cursor
(`now ≤ nextBeatTime`, as holds in undelayed operation), a scheduling
pass terminates having drained the whole lookahead window and emits at
most `⌈lookahead / subdivision interval⌉` clicks, for every stored tempo
in [20, 300] and every stored subdivision ≥ 1.  When the polling timer
has been throttled long enough that the clock overtakes the cursor, a
pass can emit more (see the counterexample). -/
theorem schedule_pass_click_bound (m : Metronome) (now : ℚ)
    (hb1 : 20 ≤ m.bpm) (hb2 : m.bpm ≤ 300) (hs : 1 ≤ m.subdivision)
    (hcur : now ≤ m.nextBeatTime) :
    (m.schedulePass now).2.length
        ≤ (⌈SCHEDULE_AHEAD_TIME / m.secondsPerClick⌉).toNat ∧
    now + SCHEDULE_AHEAD_TIME ≤ (m.schedulePass now).1.nextBeatTime := by
  have hbq : (0 : ℚ) < (m.bpm : ℚ) := by
    exact_mod_cast lt_of_lt_of_le (by norm_num) hb1
  have hsq : (0 : ℚ) < (m.subdivision : ℚ) := by exact_mod_cast hs
  have hd : 0 < m.secondsPerClick := div_pos (div_pos (by norm_num) hbq) hsq
  refine ⟨?_, m.schedulePass_drains now hd⟩
  have hlen := Metronome.scheduleGo_length_le
    (m.scheduleFuel (now + SCHEDULE_AHEAD_TIME)) m now (now + SCHEDULE_AHEAD_TIME)
  have hfle : m.scheduleFuel (now + SCHEDULE_AHEAD_TIME)
      ≤ (⌈SCHEDULE_AHEAD_TIME / m.secondsPerClick⌉).toNat := by
    unfold Metronome.scheduleFuel
    have harg : (now + SCHEDULE_AHEAD_TIME - m.nextBeatTime) / m.secondsPerClick
        ≤ SCHEDULE_AHEAD_TIME / m.secondsPerClick :=
      (div_le_div_right hd).mpr (by linarith)
    exact Int.toNat_le_toNat (Int.ceil_mono harg)
  exact hlen.trans hfle

/-- Witness for `schedule_pass_click_bound` on a freshly constructed
engine at clock time 0. -/
theorem schedule_pass_click_bound_witness :
    (20 ≤ Metronome.init.bpm ∧ Metronome.init.bpm ≤ 300 ∧
      1 ≤ Metronome.init.subdivision ∧ (0 : ℚ) ≤ Metronome.init.nextBeatTime) ∧
    ((Metronome.init.schedulePass 0).2.length
        ≤ (⌈SCHEDULE_AHEAD_TIME / Metronome.init.secondsPerClick⌉).toNat ∧
      0 + SCHEDULE_AHEAD_TIME ≤ (Metronome.init.schedulePass 0).1.nextBeatTime) :=
  ⟨⟨by decide, by decide, by decide, by norm_num [Metronome.init]⟩,
   schedule_pass_click_bound Metronome.init 0 (by decide) (by decide) (by decide)
     (by norm_num [Metronome.init])⟩

/-- The claim's unconditional per-pass bound fails when the cursor lags
the clock: at 120 BPM, subdivision 1 (interval 1/2 s, bound
⌈0.1 / 0.5⌉ = 1), a pass at clock time 9/10 with the cursor at 0 emits
2 clicks. -/
theorem schedule_pass_bound_cex :
    ¬ ((laggingState.schedulePass (9/10)).2.length
        ≤ (⌈SCHEDULE_AHEAD_TIME / laggingState.secondsPerClick⌉).toNat) := by
  have hfuel : laggingState.scheduleFuel (9/10 + SCHEDULE_AHEAD_TIME) = 2 := by
    apply Metronome.scheduleFuel_eq <;>
      norm_num [laggingState, Metronome.secondsPerClick, SCHEDULE_AHEAD_TIME]
  have hbound : (⌈SCHEDULE_AHEAD_TIME / laggingState.secondsPerClick⌉).toNat = 1 := by
    rw [show ⌈SCHEDULE_AHEAD_TIME / laggingState.secondsPerClick⌉ = (1 : ℤ) from
      Int.ceil_eq_iff.mpr (by constructor <;>
        norm_num [laggingState, Metronome.secondsPerClick, SCHEDULE_AHEAD_TIME])]
    simp
  rw [Metronome.schedulePass, hfuel, hbound]
  norm_num [Metronome.scheduleGo, Metronome.advanceBeat, Metronome.scheduleClick,
    Metronome.secondsPerClick, laggingState, SCHEDULE_AHEAD_TIME]

/-- C8: whenever `start()` takes the engine from Stopped to Running it
invokes the `onStart` hook exactly once, strictly after every other start
step (clock acquisition, resume, cursor reset, anchoring, first pass,
polling installation); whenever `stop()` takes it from Running to Stopped
it invokes the `onStop` hook last, after cancelling the polling.  (The
hook-invoking `start`/`stop` are modelled from the spec; see
`startWithHooks`.) -/
theorem lifecycle_hooks_last (m m' : Metronome) (now : ℚ) (lat : Option ℚ)
    (h1 : m.isRunning = false) (h2 : m'.isRunning = true) :
    (m.startWithHooks now lat).2.2.getLast? = some LifecycleStep.hookOnStart ∧
    LifecycleStep.hookOnStart ∉ (m.startWithHooks now lat).2.2.dropLast ∧
    (m.startWithHooks now lat).1 = (m.start now lat).1 ∧
    (m.startWithHooks now lat).2.1 = (m.start now lat).2 ∧
    (m.startWithHooks now lat).1.isRunning = true ∧
    (m'.stopWithHooks).2.getLast? = some LifecycleStep.hookOnStop ∧
    LifecycleStep.hookOnStop ∉ (m'.stopWithHooks).2.dropLast ∧
    (m'.stopWithHooks).1 = m'.stop ∧
    (m'.stopWithHooks).1.isRunning = false := by
  have hb : ¬ m.isRunning = true := by simp [h1]
  have hsw : m.startWithHooks now lat
      = ((m.start now lat).1, (m.start now lat).2,
         [LifecycleStep.acquireClock, LifecycleStep.resumeClock,
          LifecycleStep.resetCursor, LifecycleStep.anchorNext,
          LifecycleStep.firstPass, LifecycleStep.beginPolling,
          LifecycleStep.hookOnStart]) := by
    rw [Metronome.startWithHooks, if_neg hb]
  have htw : m'.stopWithHooks
      = (m'.stop, [LifecycleStep.cancelPolling, LifecycleStep.hookOnStop]) := by
    rw [Metronome.stopWithHooks, if_pos h2]
  have hstoprun : m'.stop.isRunning = false := by
    rw [Metronome.stop, if_pos h2]
    rfl
  rw [hsw, htw]
  refine ⟨rfl, ?_, rfl, rfl, m.start_isRunning now lat, rfl, ?_, rfl, hstoprun⟩
  · show LifecycleStep.hookOnStart ∉
      ([LifecycleStep.acquireClock, LifecycleStep.resumeClock,
        LifecycleStep.resetCursor, LifecycleStep.anchorNext,
        LifecycleStep.firstPass, LifecycleStep.beginPolling,
        LifecycleStep.hookOnStart] : List LifecycleStep).dropLast
    decide
  · show LifecycleStep.hookOnStop ∉
      ([LifecycleStep.cancelPolling, LifecycleStep.hookOnStop]
        : List LifecycleStep).dropLast
    decide

/-- Witness for `lifecycle_hooks_last`: a fresh (stopped) engine starting
and a running engine stopping. -/
theorem lifecycle_hooks_last_witness :
    (Metronome.init.isRunning = false ∧ runningExample.isRunning = true) ∧
    (Metronome.init.startWithHooks 0 none).2.2.getLast?
        = some LifecycleStep.hookOnStart ∧
    (runningExample.stopWithHooks).2.getLast? = some LifecycleStep.hookOnStop :=
  ⟨⟨rfl, rfl⟩,
   (lifecycle_hooks_last Metronome.init runningExample 0 none rfl rfl).1,
   (lifecycle_hooks_last Metronome.init runningExample 0 none rfl rfl).2.2.2.2.2.1⟩
